import Mathlib

/-!
Verification development for `src/newstate.c` of lua-newstate: a Lua module
that creates an isolated secondary `lua_State`, loads code into it, invokes a
pinned entry function, and deep-copies values between the caller's state and
the sandbox state.

The embedding is shallow.  Lua values are modelled by the inductive `LVal`
(scalars carry their payloads; tables are the list of key/value pairs in native
iteration order, which is exactly the sequence `lua_next` produces; functions,
full userdata and threads carry only an identity, since `moveit` never looks
inside them).  A `lua_State`'s evaluation stack is a `List LVal`, bottom first;
`lua_gettop` is `List.length`, a push is an append at the end, and a C function
returning `rc` hands the top `rc` values of its stack to the caller.

The host engine's parser/compiler and bytecode interpreter are external
collaborators of this module; they are abstracted by the `loadfn` type
(mirroring the C `loadfn` typedef used for `luaL_loadbuffer`/`luaL_loadfile`)
and by the `Engine` structure, whose `call` field models what `lua_pcall` does
with the function slot and arguments that `runit` has placed on the sandbox
stack.

A second, heap-based model (`Heap`, `moveH`) gives tables an explicit identity
and models `lua_createtable`/`lua_rawset` as allocation and mutation in a store,
so that storage freshness and non-aliasing of the copy can be stated.
-/

namespace Newstate

/-- Lua value, as `moveit` distinguishes them via `lua_type`.  `str` uses a
Lean `String` for the byte payload (`lua_pushlstring` copies length-prefixed
bytes, so embedded zero characters are preserved verbatim); `num` models the
`lua_Number` payload, which `moveit` copies without arithmetic; `lightud` is
the non-dereferenced pointer payload of a light userdata.  `func`, `userdata`
and `thread` carry an opaque identity only. -/
inductive LVal : Type where
  | nil : LVal
  | boolean (b : Bool) : LVal
  | lightud (addr : Nat) : LVal
  | num (x : Int) : LVal
  | str (s : String) : LVal
  | table (kvs : List (LVal × LVal)) : LVal
  | func (id : Nat) : LVal
  | userdata (id : Nat) : LVal
  | thread (id : Nat) : LVal
deriving Repr

/-- `lua_typename` of a value's type tag (light userdata and full userdata
share the name "userdata", as in Lua). -/
def luaTypename : LVal → String
  | .nil => "nil"
  | .boolean _ => "boolean"
  | .lightud _ => "userdata"
  | .num _ => "number"
  | .str _ => "string"
  | .table _ => "table"
  | .func _ => "function"
  | .userdata _ => "userdata"
  | .thread _ => "thread"

/-- The scalar (non-composite) transferable kinds: the `LUA_TNIL`,
`LUA_TBOOLEAN`, `LUA_TLIGHTUSERDATA`, `LUA_TNUMBER` and `LUA_TSTRING` branches
of `moveit`. -/
def isScalar : LVal → Bool
  | .nil => true
  | .boolean _ => true
  | .lightud _ => true
  | .num _ => true
  | .str _ => true
  | _ => false

/-- The message `moveit` formats on rejection:
`lua_pushfstring(src, "cannot exchange <%s> value", lua_typename(src, t))`. -/
def exchangeMsg (tname : String) : String :=
  "cannot exchange <" ++ tname ++ "> value"

/-- Result of copying one source value with `moveit`.

`ok v` : the copy pushed onto the destination stack.

`err junk tname rc` : a non-transferable kind was hit; `junk` lists the values
this call had already pushed onto the destination stack (a half-built table
and a moved key may be stranded there), `tname` is the offending type name,
and `rc` is the C return value — `3` from the `default` branch (which pushed
`false`, the message and `-1` onto the *source* state), but `2` from the
`LUA_TTABLE` branch, which does `return 2` after a failed recursive call. -/
inductive MRes : Type where
  | ok (v : LVal) : MRes
  | err (junk : List LVal) (tname : String) (rc : Nat) : MRes
deriving Repr

mutual
/-- One iteration of `moveit`'s `switch` on a single source value.  Scalars
copy by value.  A table allocates a fresh empty table in the destination
(`lua_createtable`) and walks its pairs with `movePairs`.  The `default`
branch (function, full userdata, thread) pushes the rejection triple onto the
source state — modelled at the call sites, where the source stack lives — and
returns 3. -/
def moveOne (v : LVal) : MRes :=
  match v with
  | .nil => .ok .nil
  | .boolean b => .ok (.boolean b)
  | .lightud a => .ok (.lightud a)
  | .num x => .ok (.num x)
  | .str s => .ok (.str s)
  | .table kvs => movePairs [] kvs
  | .func i => .err [] (luaTypename (.func i)) 3
  | .userdata i => .err [] (luaTypename (.userdata i)) 3
  | .thread i => .err [] (luaTypename (.thread i)) 3
termination_by sizeOf v

/-- The `lua_next` loop of `moveit`'s `LUA_TTABLE` branch.  `acc` is the
content of the destination table built so far.  Each pair moves key then value
(the recursive `moveit(src, dst, -2, -1)`), then `lua_rawset(dst, -3)` inserts
them.  The destination table is freshly created and the source keys are
pairwise raw-distinct (`lua_next` never yields a key twice), and copies of
raw-distinct keys stay raw-distinct (scalar copies are equal to their source,
table/composite copies are freshly allocated), so the `rawset` never
overwrites an existing key: it is modelled as an append.  On a failed
recursive call the branch does `return 2`, discarding the inner return count
and stranding the half-built table (and a moved key, if the value was the
culprit) on the destination stack. -/
def movePairs (acc : List (LVal × LVal)) (l : List (LVal × LVal)) : MRes :=
  match l with
  | [] => .ok (.table acc)
  | (k, v) :: rest =>
    match moveOne k with
    | .err junk tname _ => .err (.table acc :: junk) tname 2
    | .ok k2 =>
      match moveOne v with
      | .err junk tname _ => .err (.table acc :: k2 :: junk) tname 2
      | .ok v2 => movePairs (acc ++ [(k2, v2)]) rest
termination_by sizeOf l
end

/-- Result of `moveit(src, dst, idx, eoi)` over a whole stack range.

`ok moved` : the copies pushed onto the destination stack, in order.

`err junk tname rc` : the values stranded on the destination stack (the copies
of the preceding range elements followed by the failing element's partial
pushes), the offending type name, and the C return value (`3` if the offending
value sat directly in the range, `2` if it was nested inside a table). -/
inductive MoveResult : Type where
  | ok (moved : List LVal) : MoveResult
  | err (junk : List LVal) (tname : String) (rc : Nat) : MoveResult
deriving Repr

/-- `moveit(src, dst, idx, eoi)`: the `while (idx <= eoi)` loop over the
source-stack range, given here as the list of values at `idx..eoi`. -/
def moveMany (l : List LVal) : MoveResult :=
  match l with
  | [] => .ok []
  | v :: rest =>
    match moveOne v with
    | .err junk tname rc => .err junk tname rc
    | .ok v2 =>
      match moveMany rest with
      | .ok moved => .ok (v2 :: moved)
      | .err junk tname rc => .err (v2 :: junk) tname rc

example : moveMany [.num 3, .str "a"] = .ok [.num 3, .str "a"] := by
  simp [moveMany, moveOne]

example : moveMany [.num 1, .func 0] = .err [.num 1] "function" 3 := by
  simp [moveMany, moveOne, luaTypename]

example :
    moveMany [.table [(.num 1, .func 0)]]
      = .err [.table [], .num 1] "function" 2 := by
  simp [moveMany, moveOne, movePairs, luaTypename]

/-- The `newstate_t` userdata: the owned sandbox `lua_State` is modelled by
its evaluation stack, and `ref_fn` — the registry reference pinning the
current entry function — by an `Option` (`none` is `LUA_NOREF`; the registry
indirection of `luaL_ref`/`lua_rawgeti` collapses to storing the referenced
value itself, and `luaL_unref`-then-`luaL_ref` in `load_lua` collapses to
replacement). -/
structure NState : Type where
  stack : List LVal
  ref_fn : Option LVal
deriving Repr

/-- The `loadfn` typedef: an external compile entry point
(`luaL_loadbuffer` for `loadstring`/`dostring`, `luaL_loadfile` for
`loadfile`/`dofile`).  Success yields the compiled chunk (a function value
pushed on the sandbox stack); failure yields the compiler's error message and
its nonzero status return (`LUA_ERRSYNTAX`, `LUA_ERRMEM`, `LUA_ERRFILE`, ...).
`luaL_loadbuffer`/`luaL_loadfile` always leave a string message on failure. -/
def loadfn : Type := String → Except (String × Int) LVal

/-- The embedded engine's protected-call behaviour: what `lua_pcall` does to
the function slot and argument list that `runit` placed on the sandbox stack.
Success carries the result values the call left on the stack; failure carries
the error value (an arbitrary Lua value — `error()` can raise any value) and
the nonzero status `lua_pcall` returned (`LUA_ERRRUN`, `LUA_ERRMEM`,
`LUA_ERRERR`, ...). -/
structure Engine : Type where
  call : LVal → List LVal → Except (LVal × Int) (List LVal)

/-- `lua_tolstring` as used by `luaL_checklstring(dst, 1, &len)` in `runit`:
a string converts to itself, a number converts to its decimal notation, and
every other kind does not convert (so `luaL_checklstring` raises). -/
def errStr : LVal → Option String
  | .str s => some s
  | .num x => some (toString x)
  | _ => none

/-- Outcome of one module operation as seen from the caller's `lua_State`.

`ret st rc main` : the C function returned normally; `st` is the sandbox state
afterwards, `rc` the C return value, and `main` the caller-state stack at that
moment (function arguments plus everything the operation pushed).  Lua hands
the top `rc` values of `main` to the caller.

`fault` : an error was raised on the sandbox state outside any protected
frame (`lua_error` with no `errorJmp`), which invokes the Lua panic handler
and aborts the process. -/
inductive OpOut : Type where
  | ret (st : NState) (rc : Nat) (main : List LVal) : OpOut
  | fault : OpOut
deriving Repr

/-- Values the caller receives: the top `rc` values of the caller stack.
`none` if the operation faulted, or if `rc` exceeds the stack height (the C
function would then return more values than it has — undefined behaviour). -/
def OpOut.received : OpOut → Option (List LVal)
  | .ret _ rc main => if rc ≤ main.length then some (main.drop (main.length - rc)) else none
  | .fault => none

/-- Sandbox state after the operation (`d` supplied for the faulting case,
where the process is gone). -/
def OpOut.stateD : OpOut → NState → NState
  | .ret st _ _, _ => st
  | .fault, d => d

/-- `runit(src, dst)`: protected call in the sandbox and transfer of the
results back.  `sb.stack` must hold the callee at position 1 and its arguments
above it (`lua_pcall(dst, lua_gettop(dst) - 1, LUA_MULTRET, 0)`); `main` is
the caller stack.

On `lua_pcall` failure the error value is read back with `luaL_checklstring`
— note this raises on the *sandbox* state when the error value is not
string-convertible, and no protected frame is active there any more, so the
process panics (`OpOut.fault`); otherwise `false`, the message and the status
are pushed onto the caller stack and 3 is returned, the error value remaining
on the sandbox stack.

On success, `true` is pushed onto the caller stack and the results are moved
with `moveit(dst, src, 1, nres)`.  Since the sandbox is the *source* of this
transfer, a rejection pushes the `(false, message, -1)` triple onto the
sandbox stack, where `lua_settop(dst, 0)` immediately discards it; the caller
stack keeps `true` and whatever prefix of the results was already moved, and
the rejection's return count is taken against the caller stack. -/
def runit (E : Engine) (sb : NState) (main : List LVal) : OpOut :=
  match E.call (sb.stack.headD .nil) sb.stack.tail with
  | .error (eobj, rc) =>
    match errStr eobj with
    | some m =>
      .ret { stack := [.str m], ref_fn := sb.ref_fn } 3
        (main ++ [.boolean false, .str m, .num rc])
    | none => .fault
  | .ok results =>
    match moveMany results with
    | .ok moved =>
      .ret { stack := [], ref_fn := sb.ref_fn } (1 + results.length)
        (main ++ [.boolean true] ++ moved)
    | .err junk _ rc =>
      .ret { stack := [], ref_fn := sb.ref_fn } rc
        (main ++ [.boolean true] ++ junk)

/-- `run_lua`: the `run` method.  Caller stack is `h :: args` (the handle at
index 1, arguments at 2..top).  The sandbox stack is first cleared
(`lua_settop(state->L, 0)`), the pinned entry is fetched with `lua_rawgeti`
(`LUA_NOREF` yields `nil`), the arguments are moved in with
`moveit(L, state->L, 2, lua_gettop(L))` — a rejection pushes the triple onto
the caller stack, clears the sandbox stack and returns the `moveit` count —
and `runit` finishes the job. -/
def run_lua (E : Engine) (st : NState) (h : LVal) (args : List LVal) : OpOut :=
  let entry := st.ref_fn.getD .nil
  match moveMany args with
  | .err _ tname rc =>
    .ret { stack := [], ref_fn := st.ref_fn } rc
      (h :: args ++ [.boolean false, .str (exchangeMsg tname), .num (-1)])
  | .ok args2 => runit E { stack := entry :: args2, ref_fn := st.ref_fn } (h :: args)

/-- `loadit(src, dst, idx, fn)`: clears the sandbox stack and compiles the
text at caller-stack index `idx` inside the sandbox.  The stack bookkeeping
(failure triple on the caller stack, compiled chunk left at sandbox position 1)
is carried out by the callers `load_lua` and `do_lua` below. -/
def loadit (fn : loadfn) (text : String) : Except (String × Int) LVal :=
  fn text

/-- `load_lua`: the `loadstring`/`loadfile` methods (they differ only in the
`loadfn` passed).  Caller stack is `[h, text]`.  On compile failure the
sandbox stack is cleared, the previous `ref_fn` is left untouched and
`(false, message, status)` is returned.  On success the old reference is
unreffed, the fresh chunk is reffed as the new entry (which empties the
sandbox stack), and `true` is returned. -/
def load_lua (fn : loadfn) (st : NState) (h : LVal) (text : String) : OpOut :=
  match loadit fn text with
  | .error (m, status) =>
    .ret { stack := [], ref_fn := st.ref_fn } 3
      [h, .str text, .boolean false, .str m, .num status]
  | .ok chunk =>
    .ret { stack := [], ref_fn := some chunk } 1 [h, .str text, .boolean true]

/-- `do_lua`: the `dostring`/`dofile` methods.  Caller stack is
`h :: text :: args` (arguments start at index 3).  The text is compiled with
`loadit`, the arguments are moved in above the fresh chunk, and `runit` calls
it — all without ever touching `state->ref_fn`. -/
def do_lua (fn : loadfn) (E : Engine) (st : NState) (h : LVal) (text : String)
    (args : List LVal) : OpOut :=
  match loadit fn text with
  | .error (m, status) =>
    .ret { stack := [], ref_fn := st.ref_fn } 3
      (h :: .str text :: args ++ [.boolean false, .str m, .num status])
  | .ok chunk =>
    match moveMany args with
    | .err _ tname rc =>
      .ret { stack := [], ref_fn := st.ref_fn } rc
        (h :: .str text :: args ++ [.boolean false, .str (exchangeMsg tname), .num (-1)])
    | .ok args2 =>
      runit E { stack := chunk :: args2, ref_fn := st.ref_fn } (h :: .str text :: args)

/-- Outcome of `new_lua` (the module's `new` function).

`handle st openlibs` : a `newstate_t` userdata was returned; `st` is its
sandbox state and `openlibs` records whether `luaL_openlibs` ran.

`nilResult` : `luaL_newstate()` returned `NULL`, so `nil` was pushed and
returned instead of a handle.

`argError m` : `luaL_checktype(L, 1, LUA_TBOOLEAN)` raised because the first
argument was neither absent, `nil`, nor a boolean. -/
inductive NewOut : Type where
  | handle (st : NState) (openlibs : Bool) : NewOut
  | nilResult : NewOut
  | argError (m : String) : NewOut
deriving Repr

/-- `new_lua`: argument 1 selects whether to preload the standard library
(absent or `nil` means `true`); `allocOk` models whether `luaL_newstate()`
succeeds.  On success the handle starts with `ref_fn = LUA_NOREF` and an empty
sandbox stack; on allocation failure `nil` is returned (no error is raised). -/
def new_lua (allocOk : Bool) (arg1 : Option LVal) : NewOut :=
  match arg1 with
  | none =>
    if allocOk then .handle { stack := [], ref_fn := none } true else .nilResult
  | some .nil =>
    if allocOk then .handle { stack := [], ref_fn := none } true else .nilResult
  | some (.boolean b) =>
    if allocOk then .handle { stack := [], ref_fn := none } b else .nilResult
  | some _ => .argError "bad argument"

/-!
Store-passing model of the `moveit` traversal.  The tree model above collapses
a table to its contents, which is right for the stack protocol but cannot
express that the copy lives in newly allocated storage.  Here a destination
table is a reference (`HVal.tref`) into a `Heap`; `lua_createtable` allocates
a fresh empty table and `lua_rawset` mutates exactly one table of the store,
so storage freshness and non-interference with pre-existing destination
tables become provable statements.
-/

/-- Heap-model Lua value: as `LVal`, except that a table is a reference into
a `Heap`. -/
inductive HVal : Type where
  | nil : HVal
  | boolean (b : Bool) : HVal
  | lightud (addr : Nat) : HVal
  | num (x : Int) : HVal
  | str (s : String) : HVal
  | tref (id : Nat) : HVal
  | func (id : Nat) : HVal
  | userdata (id : Nat) : HVal
  | thread (id : Nat) : HVal
deriving DecidableEq, Repr

/-- A `lua_State`'s table store: table ids `0 ≤ id < size` are live, and
`tbl id` is that table's key/value pairs in native iteration order. -/
structure Heap : Type where
  size : Nat
  tbl : Nat → List (HVal × HVal)

/-- Pointwise update of a store's table map. -/
def upd (f : Nat → List (HVal × HVal)) (i : Nat) (x : List (HVal × HVal)) :
    Nat → List (HVal × HVal) :=
  fun j => if j = i then x else f j

/-- `lua_rawset` on a single table's pair list: raw equality on `HVal` is Lua
raw equality (scalars by value, tables/functions/userdata/threads by
identity), so an existing raw-equal key is overwritten in place and a new key
is appended at the end. -/
def setPair (kvs : List (HVal × HVal)) (k v : HVal) : List (HVal × HVal) :=
  match kvs with
  | [] => [(k, v)]
  | (k0, v0) :: rest =>
    if k0 = k then (k, v) :: rest else (k0, v0) :: setPair rest k v

/-- `lua_createtable`: a fresh empty table; the new id is the old size. -/
def Heap.alloc (h : Heap) : Heap :=
  { size := h.size + 1, tbl := upd h.tbl h.size [] }

/-- `lua_rawset(dst, -3)`: store `t[k] = v` in table `t` of the heap. -/
def Heap.rawset (h : Heap) (t : Nat) (k v : HVal) : Heap :=
  { size := h.size, tbl := upd h.tbl t (setPair (h.tbl t) k v) }

/-- Result of the store-passing `moveit`: the destination heap threaded
through, a rejection naming the offending kind (the `default` branch), or
fuel exhaustion — the C recursion is bounded only by the native stack, so the
model makes the depth budget explicit. -/
inductive HRes : Type where
  | ok (dst : Heap) (v : HVal) : HRes
  | reject (tname : String) : HRes
  | nofuel : HRes

mutual
/-- Store-passing form of `moveit`'s `switch` on one source value: scalars
copy by value; a source table `tref i` allocates a fresh destination table
(`lua_createtable`) and fills it from the source pairs; function, full
userdata and thread are rejected. -/
def moveH (src : Heap) (fuel : Nat) (dst : Heap) (v : HVal) : HRes :=
  match fuel, v with
  | 0, _ => .nofuel
  | _ + 1, .nil => .ok dst .nil
  | _ + 1, .boolean b => .ok dst (.boolean b)
  | _ + 1, .lightud a => .ok dst (.lightud a)
  | _ + 1, .num x => .ok dst (.num x)
  | _ + 1, .str s => .ok dst (.str s)
  | f + 1, .tref i => moveHPairs src f dst.alloc dst.size (src.tbl i)
  | _ + 1, .func _ => .reject "function"
  | _ + 1, .userdata _ => .reject "userdata"
  | _ + 1, .thread _ => .reject "thread"
termination_by (fuel, 0)

/-- Store-passing form of the `lua_next` loop: move the key, move the value
(the recursive `moveit(src, dst, -2, -1)`), `lua_rawset` them into the
destination table `tid`, and continue; a failed recursive move aborts the
whole traversal. -/
def moveHPairs (src : Heap) (fuel : Nat) (dst : Heap) (tid : Nat)
    (l : List (HVal × HVal)) : HRes :=
  match l with
  | [] => .ok dst (.tref tid)
  | (k, v) :: rest =>
    match moveH src fuel dst k with
    | .ok d1 k2 =>
      match moveH src fuel d1 v with
      | .ok d2 v2 => moveHPairs src fuel (d2.rawset tid k2 v2) tid rest
      | r => r
    | r => r
termination_by (fuel, l.length + 1)
end

mutual
/-- Reads a heap value back as a tree (`LVal`), resolving table references to
the given depth; `none` when the depth budget is exhausted.  Two heap values
in two stores represent the same Lua data exactly when they read back to the
same tree. -/
def readback (h : Heap) (fuel : Nat) (v : HVal) : Option LVal :=
  match fuel, v with
  | 0, _ => none
  | _ + 1, .nil => some .nil
  | _ + 1, .boolean b => some (.boolean b)
  | _ + 1, .lightud a => some (.lightud a)
  | _ + 1, .num x => some (.num x)
  | _ + 1, .str s => some (.str s)
  | f + 1, .tref i =>
    match readbackPairs h f (h.tbl i) with
    | some l => some (.table l)
    | none => none
  | _ + 1, .func i => some (.func i)
  | _ + 1, .userdata i => some (.userdata i)
  | _ + 1, .thread i => some (.thread i)
termination_by (fuel, 0)

/-- Pairwise `readback` over a table's contents. -/
def readbackPairs (h : Heap) (fuel : Nat) (l : List (HVal × HVal)) :
    Option (List (LVal × LVal)) :=
  match l with
  | [] => some []
  | (k, v) :: rest =>
    match readback h fuel k, readback h fuel v, readbackPairs h fuel rest with
    | some k2, some v2, some rest2 => some ((k2, v2) :: rest2)
    | _, _, _ => none
termination_by (fuel, l.length + 1)
end

/-- A table's key list has no raw-equal duplicates — an invariant of every
real Lua table (`lua_next` yields each key exactly once). -/
def WFTable (l : List (HVal × HVal)) : Prop :=
  (l.map Prod.fst).Nodup

/-- Every table of the store is well formed. -/
def Heap.WF (h : Heap) : Prop :=
  ∀ i, WFTable (h.tbl i)

/-- Two heaps agree on the table ids in `[lo, hi)`. -/
def AgreesOn (lo hi : Nat) (h1 h2 : Heap) : Prop :=
  ∀ j, lo ≤ j → j < hi → h2.tbl j = h1.tbl j

/-- Relation between a source value and its copy: scalars (and the inert
identity kinds) copy to themselves, a source table copies to a table
reference freshly allocated in `[lo, hi)`; the rejected kinds never produce a
copy. -/
def CopyShape (lo hi : Nat) : HVal → HVal → Prop
  | .tref _, w => ∃ j, w = .tref j ∧ lo ≤ j ∧ j < hi
  | .func _, _ => False
  | .userdata _, _ => False
  | .thread _, _ => False
  | v, w => w = v

/-- Constraint on a key already inserted in the destination table while the
pairs in `l` are still to come: an inserted table key lives below `sz` (it
was allocated before the current heap grew to `sz`), and an inserted scalar
key cannot recur among the remaining source keys. -/
def KeyFits (sz : Nat) (l : List (HVal × HVal)) (k0 : HVal) : Prop :=
  match k0 with
  | .tref j => j < sz
  | .func _ => False
  | .userdata _ => False
  | .thread _ => False
  | s => ¬ s ∈ l.map Prod.fst

/-- Induction statement for `moveH` at a fixed fuel: a successful copy only
grows the destination store, never touches a pre-existing destination table,
has the copy shape, reads back to exactly what the source value reads back to
— in any future heap that still agrees with the result heap on the freshly
allocated range — and the source value itself is readable at that fuel. -/
def MHstmt (src : Heap) (fuel : Nat) : Prop :=
  ∀ dst v dst' v', moveH src fuel dst v = .ok dst' v' →
    dst.size ≤ dst'.size
    ∧ (∀ j, j < dst.size → dst'.tbl j = dst.tbl j)
    ∧ CopyShape dst.size dst'.size v v'
    ∧ (∀ h2, AgreesOn dst.size dst'.size dst' h2 →
        readback h2 fuel v' = readback src fuel v)
    ∧ (readback src fuel v).isSome = true

/-- Induction statement for `moveHPairs` at a fixed fuel, relative to the
destination table `tid` being filled. -/
def MPstmt (src : Heap) (fuel : Nat) : Prop :=
  ∀ dst tid l dst' w,
    tid < dst.size →
    (∀ k0 ∈ (dst.tbl tid).map Prod.fst, KeyFits dst.size l k0) →
    (l.map Prod.fst).Nodup →
    moveHPairs src fuel dst tid l = .ok dst' w →
      w = .tref tid
      ∧ dst.size ≤ dst'.size
      ∧ (∀ j, j < dst.size → j ≠ tid → dst'.tbl j = dst.tbl j)
      ∧ ∃ newPairs,
          dst'.tbl tid = dst.tbl tid ++ newPairs
          ∧ (∀ h2, AgreesOn dst.size dst'.size dst' h2 →
              readbackPairs h2 fuel newPairs = readbackPairs src fuel l)
          ∧ (readbackPairs src fuel l).isSome = true

/-!
Concrete fixtures used by the per-claim evaluation and witness theorems.
Each `Engine`/`loadfn` stands for a specific behaviour of the embedded
engine observed at the `lua_pcall`/load boundary.
-/

/-- Entry point returning `1, 2, function() end`: the protected call succeeds
and the third result is non-transferable. -/
def Eres3 : Engine := { call := fun _ _ => .ok [.num 1, .num 2, .func 0] }

/-- Entry point returning nothing. -/
def Eempty : Engine := { call := fun _ _ => .ok [] }

/-- Entry point raising `error('boom')`: a string error value, status
`LUA_ERRRUN`. -/
def Eboom : Engine := { call := fun _ _ => .error (.str "t.lua:1: boom", 2) }

/-- Entry point raising a table as its error value (`error {}`): the error
value is not string-convertible. -/
def EtableErr : Engine := { call := fun _ _ => .error (.table [], 2) }

/-- What `lua_pcall` does when the pushed callee is `nil`: runtime error,
status `LUA_ERRRUN`. -/
def EnilCall : Engine :=
  { call := fun _ _ => .error (.str "attempt to call a nil value", 2) }

/-- A compiler that succeeds, producing chunk `func 5`. -/
def fnOkW : loadfn := fun _ => .ok (.func 5)

/-- A compiler that fails with a syntax error, status `LUA_ERRSYNTAX`. -/
def fnErrW : loadfn := fun _ => .error ("[string]:1: unexpected symbol", 3)

/-- Source store for the composite-copy witness: table 0 is
`{[1] = t1}` where `t1` (table 1) is `{x = 2}`. -/
def srcW : Heap :=
  { size := 2,
    tbl := fun i =>
      if i = 0 then [(.num 1, .tref 1)]
      else if i = 1 then [(.str "x", .num 2)]
      else [] }

/-- Destination store for the composite-copy witness, with one pre-existing
table `{[9] = 9}` that the transfer must not touch. -/
def dstW : Heap :=
  { size := 1, tbl := fun i => if i = 0 then [(.num 9, .num 9)] else [] }

/-- The transfer of table 0 of `srcW` into `dstW`, with depth budget 5. -/
def moveHResW : HRes := moveH srcW 5 dstW (.tref 0)

/-- Destination store produced by the witness transfer. -/
def dstW2 : Heap :=
  match moveHResW with
  | .ok d _ => d
  | _ => dstW

/-- Value produced by the witness transfer. -/
def valW2 : HVal :=
  match moveHResW with
  | .ok _ v => v
  | _ => .nil

/-- Round trip of one value through `moveit`: into the sandbox and back. -/
def roundtrip (v : LVal) : Option LVal :=
  match moveOne v with
  | .ok w =>
    match moveOne w with
    | .ok u => some u
    | .err _ _ _ => none
  | .err _ _ _ => none

/-!  Theorems, one per claim, with their witnesses and helper lemmas.  -/

/-- C1: evaluation at the failing input.  The entry point succeeds and
returns `1, 2, function() end`; the claim says `run` must report a falsy
failure outcome and never a truncated result set as success.  The code
instead pushes the rejection triple onto the sandbox state (the source of the
result transfer), wipes it with `lua_settop(dst, 0)`, and returns the
`moveit` count 3 against the caller stack — so the caller receives
`true, 1, 2`: a truthy flag and a silently truncated result set. -/
theorem C1_result_rejection_returned_as_success :
    run_lua Eres3 { stack := [], ref_fn := some (.func 7) } (.userdata 0) []
      = .ret { stack := [], ref_fn := some (.func 7) } 3
          [.userdata 0, .boolean true, .num 1, .num 2]
    ∧ (run_lua Eres3 { stack := [], ref_fn := some (.func 7) } (.userdata 0) []).received
      = some [.boolean true, .num 1, .num 2] := by
  constructor
  · simp [run_lua, runit, Eres3, moveMany, moveOne, luaTypename]
  · simp [run_lua, runit, Eres3, moveMany, moveOne, luaTypename, OpOut.received]

/-- C2: evaluation at the failing input.  The argument range holds one table
containing a function at nesting depth 1; the claim says the caller receives
exactly the failure triple `(false, message, -1)`.  `moveit`'s table branch
does `return 2` after the failed recursive call, so only the top two of the
three pushed values are returned: the caller receives `(message, -1)` —
two values, and the first received value is a truthy string, not `false`. -/
theorem C2_nested_rejection_drops_false_flag :
    run_lua Eempty { stack := [], ref_fn := some (.func 7) } (.userdata 0)
        [.table [(.num 1, .func 0)]]
      = .ret { stack := [], ref_fn := some (.func 7) } 2
          [.userdata 0, .table [(.num 1, .func 0)], .boolean false,
           .str (exchangeMsg "function"), .num (-1)]
    ∧ (run_lua Eempty { stack := [], ref_fn := some (.func 7) } (.userdata 0)
        [.table [(.num 1, .func 0)]]).received
      = some [.str "cannot exchange <function> value", .num (-1)] := by
  constructor
  · simp [run_lua, runit, Eempty, moveMany, moveOne, movePairs, luaTypename]
  · simp [run_lua, runit, Eempty, moveMany, moveOne, movePairs, luaTypename,
      OpOut.received, exchangeMsg]

/-- C5: evaluation at the failing input, next to the documented scenario.
With a string error value (`error('boom')`) the protected call's failure is
converted to the value-level triple `(false, message, LUA_ERRRUN)`, as the
claim says.  But the claim quantifies over every runtime failure, and with a
non-string, non-number error value (`error({})`) `runit`'s
`luaL_checklstring(dst, 1, ...)` raises on the sandbox state, where no
protected frame is active any more, so the process panics instead of
returning a value-level result. -/
theorem C5_runtime_error_conversion_eval :
    run_lua Eboom { stack := [], ref_fn := some (.func 7) } (.userdata 0) []
      = .ret { stack := [.str "t.lua:1: boom"], ref_fn := some (.func 7) } 3
          [.userdata 0, .boolean false, .str "t.lua:1: boom", .num 2]
    ∧ (run_lua Eboom { stack := [], ref_fn := some (.func 7) } (.userdata 0) []).received
      = some [.boolean false, .str "t.lua:1: boom", .num 2]
    ∧ run_lua EtableErr { stack := [], ref_fn := some (.func 7) } (.userdata 0) []
      = .fault := by
  refine ⟨?_, ?_, ?_⟩
  · simp [run_lua, runit, Eboom, moveMany, errStr]
  · simp [run_lua, runit, Eboom, moveMany, errStr, OpOut.received]
  · simp [run_lua, runit, EtableErr, moveMany, errStr]

/-- C6: every scalar transferable value (nil, boolean, number, light
userdata, byte string — embedded zero bytes included, since the payload is
copied verbatim) is copied to itself by `moveit`, so transferring it into a
sandbox and back yields an equal value. -/
theorem C6_scalar_roundtrip (v : LVal) (hs : isScalar v = true) :
    moveOne v = .ok v ∧ roundtrip v = some v := by
  cases v <;> simp_all [isScalar, moveOne, roundtrip]

/-- C6 witness: a byte string with an embedded zero byte, a boolean, a
number and a light userdata address round-trip unchanged. -/
theorem C6_scalar_roundtrip_witness :
    isScalar (.str "a\x00b") = true
    ∧ roundtrip (.str "a\x00b") = some (.str "a\x00b")
    ∧ roundtrip (.boolean true) = some (.boolean true)
    ∧ roundtrip (.num (-3)) = some (.num (-3))
    ∧ roundtrip (.lightud 77) = some (.lightud 77)
    ∧ roundtrip .nil = some .nil :=
  ⟨rfl, (C6_scalar_roundtrip (.str "a\x00b") rfl).2,
    (C6_scalar_roundtrip (.boolean true) rfl).2,
    (C6_scalar_roundtrip (.num (-3)) rfl).2,
    (C6_scalar_roundtrip (.lightud 77) rfl).2,
    (C6_scalar_roundtrip .nil rfl).2⟩

/-- C3: clean-slate invariant.  `run_lua`, `load_lua` and `do_lua` all start
with `lua_settop(state->L, 0)`, so whatever residual values an earlier
operation left on the sandbox stack (for instance the error value a failed
protected call leaves behind), the next operation behaves exactly as if the
stack were empty — and a zero-argument, zero-result probe invocation
receives exactly `true`, seeing no leftover values. -/
theorem C3_clean_slate :
    ∀ (E : Engine) (fn : loadfn) (r : Option LVal) (s1 s2 : List LVal) (h : LVal)
      (args : List LVal) (text : String),
      run_lua E { stack := s1, ref_fn := r } h args
        = run_lua E { stack := s2, ref_fn := r } h args
      ∧ load_lua fn { stack := s1, ref_fn := r } h text
        = load_lua fn { stack := s2, ref_fn := r } h text
      ∧ do_lua fn E { stack := s1, ref_fn := r } h text args
        = do_lua fn E { stack := s2, ref_fn := r } h text args
      ∧ (∀ E2 h2, E2.call (r.getD .nil) [] = .ok [] →
          (run_lua E2 { stack := s1, ref_fn := r } h2 []).received
            = some [.boolean true]) := by
  intro E fn r s1 s2 h args text
  refine ⟨rfl, rfl, rfl, ?_⟩
  intro E2 h2 hc
  simp [run_lua, runit, moveMany, hc, OpOut.received]

/-- C3 witness: a handle whose sandbox stack still holds a residual value
behaves like one with an empty stack, and a probe invocation on it receives
exactly `true`. -/
theorem C3_clean_slate_witness :
    run_lua Eempty { stack := [.str "residual"], ref_fn := some (.func 3) }
        (.userdata 0) []
      = run_lua Eempty { stack := [], ref_fn := some (.func 3) } (.userdata 0) []
    ∧ (run_lua Eempty { stack := [.str "residual"], ref_fn := some (.func 3) }
        (.userdata 0) []).received = some [.boolean true] :=
  ⟨(C3_clean_slate Eempty fnOkW (some (.func 3)) [.str "residual"] [] (.userdata 0)
      [] "x").1,
   (C3_clean_slate Eempty fnOkW (some (.func 3)) [.str "residual"] [] (.userdata 0)
      [] "x").2.2.2 Eempty (.userdata 0) rfl⟩

/-- C4: a successful load replaces the pinned entry with the fresh chunk
(the old reference is released — modelled as replacement) and returns `true`;
a failed load leaves `ref_fn` untouched (the old entry stays pinned and
invocable) and relays the compiler's message and status as
`(false, message, status)`. -/
theorem C4_load_pins_new_or_preserves_old :
    ∀ (fn : loadfn) (st : NState) (h : LVal) (text : String),
      (∀ chunk, fn text = .ok chunk →
        load_lua fn st h text
          = .ret { stack := [], ref_fn := some chunk } 1 [h, .str text, .boolean true]
        ∧ (load_lua fn st h text).received = some [.boolean true])
      ∧ (∀ m status, fn text = .error (m, status) →
        load_lua fn st h text
          = .ret { stack := [], ref_fn := st.ref_fn } 3
              [h, .str text, .boolean false, .str m, .num status]
        ∧ (load_lua fn st h text).received
          = some [.boolean false, .str m, .num status]) := by
  intro fn st h text
  constructor
  · intro chunk hc
    constructor <;> simp [load_lua, loadit, hc, OpOut.received]
  · intro m status hc
    constructor <;> simp [load_lua, loadit, hc, OpOut.received]

/-- C4 witness: loading over a pinned entry `func 9` — success pins the new
chunk `func 5`; a syntax error leaves `func 9` pinned and relays the
compiler's message and status 3 (`LUA_ERRSYNTAX`). -/
theorem C4_load_witness :
    load_lua fnOkW { stack := [], ref_fn := some (.func 9) } (.userdata 0) "return 1"
      = .ret { stack := [], ref_fn := some (.func 5) } 1
          [.userdata 0, .str "return 1", .boolean true]
    ∧ load_lua fnErrW { stack := [], ref_fn := some (.func 9) } (.userdata 0) "(("
      = .ret { stack := [], ref_fn := some (.func 9) } 3
          [.userdata 0, .str "((", .boolean false,
           .str "[string]:1: unexpected symbol", .num 3] :=
  ⟨((C4_load_pins_new_or_preserves_old fnOkW
      { stack := [], ref_fn := some (.func 9) } (.userdata 0) "return 1").1
      (.func 5) rfl).1,
   ((C4_load_pins_new_or_preserves_old fnErrW
      { stack := [], ref_fn := some (.func 9) } (.userdata 0) "((").2
      "[string]:1: unexpected symbol" 3 rfl).1⟩

/-- C8: `do_lua` (`dostring`/`dofile`) never writes `state->ref_fn`: whenever
it returns, the pinned entry that `run` would invoke afterwards is exactly the
one pinned before the call, whether the load, the argument transfer, the
protected call or the result transfer succeeded or failed. -/
theorem C8_do_never_touches_entry :
    ∀ (fn : loadfn) (E : Engine) (st : NState) (h : LVal) (text : String)
      (args : List LVal) (st2 : NState) (rc : Nat) (main : List LVal),
      do_lua fn E st h text args = .ret st2 rc main → st2.ref_fn = st.ref_fn := by
  intro fn E st h text args st2 rc main hdo
  unfold do_lua loadit runit at hdo
  repeat' split at hdo
  all_goals first
    | (cases hdo; rfl)
    | exact OpOut.noConfusion hdo

/-- C8 witness: a successful `dostring` on a handle with pinned entry
`func 9` and a residual sandbox value returns with `ref_fn` still `func 9`. -/
theorem C8_do_witness :
    NState.ref_fn { stack := [], ref_fn := some (.func 9) }
      = NState.ref_fn { stack := [.num 5], ref_fn := some (.func 9) } :=
  C8_do_never_touches_entry fnOkW Eempty { stack := [.num 5], ref_fn := some (.func 9) }
    (.userdata 0) "return nil" [] { stack := [], ref_fn := some (.func 9) } 1
    [.userdata 0, .str "return nil", .boolean true]
    (by simp [do_lua, loadit, runit, fnOkW, Eempty, moveMany])

/-- C9: for every legal first argument (absent, `nil`, or a boolean),
`new_lua` returns `nil` — rather than raising — when `luaL_newstate()` fails,
and on success returns a handle whose pinned-entry reference starts as the
unset sentinel (`LUA_NOREF`, modelled `none`) with an empty sandbox stack. -/
theorem C9_create_unavailable_or_fresh :
    ∀ arg1 : Option LVal,
      (arg1 = none ∨ arg1 = some .nil ∨ ∃ b, arg1 = some (.boolean b)) →
      new_lua false arg1 = .nilResult
      ∧ ∃ lb, new_lua true arg1 = .handle { stack := [], ref_fn := none } lb := by
  rintro arg1 (rfl | rfl | ⟨b, rfl⟩)
  · exact ⟨rfl, true, rfl⟩
  · exact ⟨rfl, true, rfl⟩
  · exact ⟨rfl, b, rfl⟩

/-- C9 witness at `new(true)`. -/
theorem C9_create_witness :
    new_lua false (some (.boolean true)) = .nilResult
    ∧ ∃ lb, new_lua true (some (.boolean true))
        = .handle { stack := [], ref_fn := none } lb :=
  C9_create_unavailable_or_fresh (some (.boolean true)) (Or.inr (Or.inr ⟨true, rfl⟩))

/-- C10: invoking `run` on a handle on which no load ever succeeded is an
ordinary value-level failure, not undefined behaviour at the module level:
`lua_rawgeti` with `LUA_NOREF` pushes `nil`, the protected call of `nil`
fails with a runtime error (status `LUA_ERRRUN` = 2), and the caller receives
`(false, message, 2)`. -/
theorem C10_run_before_load_fails_cleanly :
    ∀ (E : Engine) (s : List LVal) (h : LVal) (args args2 : List LVal) (m : String),
      moveMany args = .ok args2 →
      E.call .nil args2 = .error (.str m, 2) →
      run_lua E { stack := s, ref_fn := none } h args
        = .ret { stack := [.str m], ref_fn := none } 3
            (h :: args ++ [.boolean false, .str m, .num 2])
      ∧ (run_lua E { stack := s, ref_fn := none } h args).received
        = some [.boolean false, .str m, .num 2] := by
  intro E s h args args2 m hmv hcall
  have h1 : run_lua E { stack := s, ref_fn := none } h args
      = .ret { stack := [.str m], ref_fn := none } 3
          (h :: args ++ [.boolean false, .str m, .num 2]) := by
    simp [run_lua, runit, hmv, hcall, errStr]
  refine ⟨h1, ?_⟩
  rw [h1]
  simp [OpOut.received]

/-- C10 witness: `new(); run()` — the engine reports "attempt to call a nil
value" with status 2 and the caller receives the failure triple. -/
theorem C10_run_before_load_witness :
    run_lua EnilCall { stack := [], ref_fn := none } (.userdata 0) []
      = .ret { stack := [.str "attempt to call a nil value"], ref_fn := none } 3
          [.userdata 0, .boolean false, .str "attempt to call a nil value", .num 2]
    ∧ (run_lua EnilCall { stack := [], ref_fn := none } (.userdata 0) []).received
      = some [.boolean false, .str "attempt to call a nil value", .num 2] :=
  C10_run_before_load_fails_cleanly EnilCall [] (.userdata 0) [] []
    "attempt to call a nil value" rfl rfl

/-!  Helper lemmas for the store-passing `moveit` model.  -/

theorem upd_self (f : Nat → List (HVal × HVal)) (i : Nat) (x : List (HVal × HVal)) :
    upd f i x i = x := by
  simp [upd]

theorem upd_ne (f : Nat → List (HVal × HVal)) (i : Nat) (x : List (HVal × HVal))
    (j : Nat) (h : j ≠ i) : upd f i x j = f j := by
  simp [upd, h]

theorem alloc_size (h : Heap) : h.alloc.size = h.size + 1 := rfl

theorem alloc_tbl_self (h : Heap) : h.alloc.tbl h.size = [] :=
  upd_self h.tbl h.size []

theorem alloc_tbl_ne (h : Heap) (j : Nat) (hj : j ≠ h.size) :
    h.alloc.tbl j = h.tbl j :=
  upd_ne h.tbl h.size [] j hj

theorem rawset_size (h : Heap) (t : Nat) (k v : HVal) :
    (h.rawset t k v).size = h.size := rfl

theorem rawset_tbl_self (h : Heap) (t : Nat) (k v : HVal) :
    (h.rawset t k v).tbl t = setPair (h.tbl t) k v :=
  upd_self h.tbl t _

theorem rawset_tbl_ne (h : Heap) (t : Nat) (k v : HVal) (j : Nat) (hj : j ≠ t) :
    (h.rawset t k v).tbl j = h.tbl j :=
  upd_ne h.tbl t _ j hj

/-- When the key is new, `lua_rawset` appends the pair at the end of the
iteration order. -/
theorem setPair_append (l : List (HVal × HVal)) (k v : HVal)
    (hk : ¬ k ∈ l.map Prod.fst) : setPair l k v = l ++ [(k, v)] := by
  induction l with
  | nil => rfl
  | cons p rest ih =>
    obtain ⟨k0, v0⟩ := p
    simp only [List.map_cons, List.mem_cons] at hk
    push_neg at hk
    simp only [setPair]
    rw [if_neg (fun he => hk.1 he.symm), ih hk.2, List.cons_append]

/-- A key constraint survives one processed pair and a grown heap. -/
theorem KeyFits_step (sz sz' : Nat) (p : HVal × HVal) (rest : List (HVal × HVal))
    (k0 : HVal) (hsz : sz ≤ sz') (h : KeyFits sz (p :: rest) k0) :
    KeyFits sz' rest k0 := by
  cases k0 <;> simp only [KeyFits, List.map_cons, List.mem_cons] at h ⊢ <;>
    first
      | omega
      | exact h
      | (push_neg at h; exact h.2)

/-- The combined induction for the store-passing `moveit`: at every fuel, a
successful `moveH` only allocates (never rewrites pre-existing destination
tables), produces a copy of the right shape whose readback equals the source
readback, and a successful `moveHPairs` extends exactly the table being
filled, appending copies whose readbacks match the source pairs. -/
theorem moveH_master (src : Heap) (hwf : src.WF) (fuel : Nat) :
    MHstmt src fuel ∧ MPstmt src fuel := by
  induction fuel with
  | zero =>
    constructor
    · intro dst v dst' v' hmv
      simp [moveH] at hmv
    · intro dst tid l dst' w htid hkeys hnd hmp
      cases l with
      | nil =>
        simp only [moveHPairs] at hmp
        injection hmp with h1 h2
        subst h1; subst h2
        exact ⟨rfl, le_refl _, fun j _ _ => rfl, [], (List.append_nil _).symm,
          fun h2 _ => by simp [readbackPairs], by simp [readbackPairs]⟩
      | cons p rest =>
        obtain ⟨k, v⟩ := p
        simp [moveHPairs, moveH] at hmp
  | succ f ih =>
    obtain ⟨ihMH, ihMP⟩ := ih
    have mhS : MHstmt src (f + 1) := by
      intro dst v dst' v' hmv
      cases v with
      | nil =>
        simp only [moveH] at hmv
        injection hmv with h1 h2
        subst h1; subst h2
        exact ⟨le_refl _, fun j _ => rfl, rfl, fun h2 _ => by simp [readback],
          by simp [readback]⟩
      | boolean b =>
        simp only [moveH] at hmv
        injection hmv with h1 h2
        subst h1; subst h2
        exact ⟨le_refl _, fun j _ => rfl, rfl, fun h2 _ => by simp [readback],
          by simp [readback]⟩
      | lightud a =>
        simp only [moveH] at hmv
        injection hmv with h1 h2
        subst h1; subst h2
        exact ⟨le_refl _, fun j _ => rfl, rfl, fun h2 _ => by simp [readback],
          by simp [readback]⟩
      | num x =>
        simp only [moveH] at hmv
        injection hmv with h1 h2
        subst h1; subst h2
        exact ⟨le_refl _, fun j _ => rfl, rfl, fun h2 _ => by simp [readback],
          by simp [readback]⟩
      | str s =>
        simp only [moveH] at hmv
        injection hmv with h1 h2
        subst h1; subst h2
        exact ⟨le_refl _, fun j _ => rfl, rfl, fun h2 _ => by simp [readback],
          by simp [readback]⟩
      | func i => simp [moveH] at hmv
      | userdata i => simp [moveH] at hmv
      | thread i => simp [moveH] at hmv
      | tref i =>
        simp only [moveH] at hmv
        have htid : dst.size < dst.alloc.size := by rw [alloc_size]; omega
        have hkeys : ∀ k0 ∈ (dst.alloc.tbl dst.size).map Prod.fst,
            KeyFits dst.alloc.size (src.tbl i) k0 := by
          rw [alloc_tbl_self]
          intro k0 hk0
          simp at hk0
        obtain ⟨hw, hsz, hpres, newPairs, htbl, hcorr, hsome⟩ :=
          ihMP dst.alloc dst.size (src.tbl i) dst' v' htid hkeys (hwf i) hmv
        subst hw
        rw [alloc_size] at hsz
        have hszlt : dst.size < dst'.size := by omega
        refine ⟨by omega, ?_, ⟨dst.size, rfl, le_refl _, hszlt⟩, ?_, ?_⟩
        · intro j hj
          rw [hpres j (by rw [alloc_size]; omega) (by omega),
            alloc_tbl_ne dst j (by omega)]
        · intro h2 hag
          have ht2 : h2.tbl dst.size = dst'.tbl dst.size :=
            hag dst.size (le_refl _) hszlt
          have hag' : AgreesOn dst.alloc.size dst'.size dst' h2 := by
            intro j hj1 hj2
            exact hag j (by rw [alloc_size] at hj1; omega) hj2
          simp only [readback]
          rw [ht2, htbl, alloc_tbl_self, List.nil_append, hcorr h2 hag']
        · simp only [readback]
          obtain ⟨L, hL⟩ := Option.isSome_iff_exists.mp hsome
          rw [hL]
          simp
    have mpS : MPstmt src (f + 1) := by
      intro dst tid l
      induction l generalizing dst with
      | nil =>
        intro dst' w htid hkeys hnd hmp
        simp only [moveHPairs] at hmp
        injection hmp with h1 h2
        subst h1; subst h2
        exact ⟨rfl, le_refl _, fun j _ _ => rfl, [], (List.append_nil _).symm,
          fun h2 _ => by simp [readbackPairs], by simp [readbackPairs]⟩
      | cons p rest ihl =>
        obtain ⟨k, v⟩ := p
        intro dst' w htid hkeys hnd hmp
        cases hk : moveH src (f + 1) dst k with
        | reject tn => simp [moveHPairs, hk] at hmp
        | nofuel => simp [moveHPairs, hk] at hmp
        | ok d1 k2 =>
          cases hv : moveH src (f + 1) d1 v with
          | reject tn => simp [moveHPairs, hk, hv] at hmp
          | nofuel => simp [moveHPairs, hk, hv] at hmp
          | ok d2 v2 =>
            simp only [moveHPairs, hk, hv] at hmp
            obtain ⟨hszk, hpresk, hshk, hrdk, hsomek⟩ := mhS dst k d1 k2 hk
            obtain ⟨hszv, hpresv, hshv, hrdv, hsomev⟩ := mhS d1 v d2 v2 hv
            have htidk : tid < d1.size := lt_of_lt_of_le htid hszk
            have htidv : tid < d2.size := lt_of_lt_of_le htidk hszv
            have hd2tid : d2.tbl tid = dst.tbl tid := by
              rw [hpresv tid htidk, hpresk tid htid]
            have hk2new : ¬ k2 ∈ (dst.tbl tid).map Prod.fst := by
              intro hmem
              have hfit := hkeys k2 hmem
              cases k with
              | tref ik =>
                obtain ⟨j, hj, hj1, hj2⟩ := hshk
                subst hj
                have : j < dst.size := hfit
                omega
              | func ik => exact hshk
              | userdata ik => exact hshk
              | thread ik => exact hshk
              | nil =>
                have he : k2 = HVal.nil := hshk
                subst he
                exact hfit (by simp)
              | boolean b =>
                have he : k2 = HVal.boolean b := hshk
                subst he
                exact hfit (by simp)
              | lightud a =>
                have he : k2 = HVal.lightud a := hshk
                subst he
                exact hfit (by simp)
              | num x =>
                have he : k2 = HVal.num x := hshk
                subst he
                exact hfit (by simp)
              | str s =>
                have he : k2 = HVal.str s := hshk
                subst he
                exact hfit (by simp)
            have hset : (d2.rawset tid k2 v2).tbl tid = dst.tbl tid ++ [(k2, v2)] := by
              rw [rawset_tbl_self, hd2tid, setPair_append _ _ _ hk2new]
            have htid3 : tid < (d2.rawset tid k2 v2).size := by
              rw [rawset_size]; omega
            have hkeys3 : ∀ k0 ∈ ((d2.rawset tid k2 v2).tbl tid).map Prod.fst,
                KeyFits (d2.rawset tid k2 v2).size rest k0 := by
              rw [hset]
              intro k0 hk0
              rw [List.map_append, List.mem_append] at hk0
              rcases hk0 with hold | hnew
              · exact KeyFits_step dst.size _ (k, v) rest k0
                  (by rw [rawset_size]; omega) (hkeys k0 hold)
              · simp at hnew
                subst k0
                cases k with
                | tref ik =>
                  obtain ⟨j, hj, hj1, hj2⟩ := hshk
                  subst hj
                  simp only [KeyFits]
                  rw [rawset_size]; omega
                | func ik => exact hshk.elim
                | userdata ik => exact hshk.elim
                | thread ik => exact hshk.elim
                | nil =>
                  have he : k2 = HVal.nil := hshk
                  subst he
                  intro hmem
                  simp only [List.map_cons, List.nodup_cons] at hnd
                  exact hnd.1 hmem
                | boolean b =>
                  have he : k2 = HVal.boolean b := hshk
                  subst he
                  intro hmem
                  simp only [List.map_cons, List.nodup_cons] at hnd
                  exact hnd.1 hmem
                | lightud a =>
                  have he : k2 = HVal.lightud a := hshk
                  subst he
                  intro hmem
                  simp only [List.map_cons, List.nodup_cons] at hnd
                  exact hnd.1 hmem
                | num x =>
                  have he : k2 = HVal.num x := hshk
                  subst he
                  intro hmem
                  simp only [List.map_cons, List.nodup_cons] at hnd
                  exact hnd.1 hmem
                | str s =>
                  have he : k2 = HVal.str s := hshk
                  subst he
                  intro hmem
                  simp only [List.map_cons, List.nodup_cons] at hnd
                  exact hnd.1 hmem
            have hnd3 : (rest.map Prod.fst).Nodup := by
              simp only [List.map_cons, List.nodup_cons] at hnd
              exact hnd.2
            obtain ⟨hw', hsz', hpres', newPairs', htbl', hcorr', hsome'⟩ :=
              ihl (d2.rawset tid k2 v2) dst' w htid3 hkeys3 hnd3 hmp
            rw [rawset_size] at hsz'
            refine ⟨hw', by omega, ?_, (k2, v2) :: newPairs', ?_, ?_, ?_⟩
            · intro j hj hjne
              rw [hpres' j (by rw [rawset_size]; omega) hjne,
                rawset_tbl_ne d2 tid k2 v2 j hjne,
                hpresv j (by omega), hpresk j hj]
            · rw [htbl', hset, List.append_assoc, List.singleton_append]
            · intro h2 hag
              have hagk : AgreesOn dst.size d1.size d1 h2 := by
                intro j hj1 hj2
                rw [hag j hj1 (by omega),
                  hpres' j (by rw [rawset_size]; omega) (by omega),
                  rawset_tbl_ne d2 tid k2 v2 j (by omega),
                  hpresv j hj2]
              have hagv : AgreesOn d1.size d2.size d2 h2 := by
                intro j hj1 hj2
                rw [hag j (by omega) (by omega),
                  hpres' j (by rw [rawset_size]; omega) (by omega),
                  rawset_tbl_ne d2 tid k2 v2 j (by omega)]
              have hagr : AgreesOn (d2.rawset tid k2 v2).size dst'.size dst' h2 := by
                intro j hj1 hj2
                rw [rawset_size] at hj1
                exact hag j (by omega) hj2
              have ek := hrdk h2 hagk
              have ev := hrdv h2 hagv
              have er := hcorr' h2 hagr
              simp only [readbackPairs]
              rw [ek, ev, er]
            · simp only [readbackPairs]
              obtain ⟨a, ha⟩ := Option.isSome_iff_exists.mp hsomek
              obtain ⟨b, hb⟩ := Option.isSome_iff_exists.mp hsomev
              obtain ⟨c, hc⟩ := Option.isSome_iff_exists.mp hsome'
              rw [ha, hb, hc]
              simp
    exact ⟨mhS, mpS⟩

/-- C7: a successful transfer of a table produces a fresh, structurally
deep-equal copy sharing no storage with anything that existed before: no
pre-existing destination table is written (every nested key and value goes
into newly created tables only, so mutating the copy afterwards cannot reach
any older table — and the source lives in a separate store altogether, so
copy and original cannot alias), the copy reads back to exactly the tree the
source table reads back to, and the returned reference is a freshly
allocated id. -/
theorem C7_composite_transfer_is_fresh_deep_copy
    (src dst dst' : Heap) (fuel i : Nat) (v' : HVal)
    (hwf : src.WF)
    (hmv : moveH src fuel dst (.tref i) = .ok dst' v') :
    (∀ j, j < dst.size → dst'.tbl j = dst.tbl j)
    ∧ readback dst' fuel v' = readback src fuel (.tref i)
    ∧ (readback src fuel (.tref i)).isSome = true
    ∧ (∀ j, v' = .tref j → dst.size ≤ j ∧ j < dst'.size) := by
  obtain ⟨hsz, hpres, hsh, hrd, hsome⟩ :=
    (moveH_master src hwf fuel).1 dst (.tref i) dst' v' hmv
  refine ⟨hpres, hrd dst' (fun j _ _ => rfl), hsome, ?_⟩
  intro j hj
  obtain ⟨j0, hj0, h1, h2⟩ := hsh
  rw [hj0] at hj
  injection hj with hjj
  subst hjj
  exact ⟨h1, h2⟩

/-- C7 witness: copying `{[1] = {x = 2}}` (table 0 of `srcW`) into a
destination store with one pre-existing table leaves that table untouched,
produces the fresh reference `tref 1`, and both source and copy read back to
the tree `{[1] = {x = 2}}`. -/
theorem C7_composite_witness :
    ((∀ j, j < dstW.size → dstW2.tbl j = dstW.tbl j)
    ∧ readback dstW2 5 valW2 = readback srcW 5 (.tref 0)
    ∧ (readback srcW 5 (.tref 0)).isSome = true
    ∧ (∀ j, valW2 = .tref j → dstW.size ≤ j ∧ j < dstW2.size))
    ∧ readback srcW 5 (.tref 0)
      = some (.table [(.num 1, .table [(.str "x", .num 2)])]) := by
  constructor
  · refine C7_composite_transfer_is_fresh_deep_copy srcW dstW dstW2 5 0 valW2 ?_ ?_
    · intro i
      by_cases h0 : i = 0
      · simp [srcW, WFTable, h0]
      · by_cases h1 : i = 1 <;> simp [srcW, WFTable, h0, h1]
    · unfold dstW2 valW2
      rw [show moveH srcW 5 dstW (.tref 0) = moveHResW from rfl]
      cases hres : moveHResW with
      | ok d v => rfl
      | reject tn =>
        simp [moveHResW, moveH, moveHPairs, Heap.alloc, Heap.rawset, upd,
          setPair, srcW, dstW] at hres
      | nofuel =>
        simp [moveHResW, moveH, moveHPairs, Heap.alloc, Heap.rawset, upd,
          setPair, srcW, dstW] at hres
  · simp [readback, readbackPairs, srcW]

end Newstate
